import Mathlib

/-!
Shallow embedding of the `blockchain_project` repository (Rust):
`src/block.rs`, `src/src/blockchain.rs`, `src/src/network.rs`, `src/main.rs`.

Machine integers (`u128` timestamps, `usize` heights) are modelled as `Nat`:
no arithmetic in the embedded code can overflow the claims under study, and
the only operations performed on them are construction, equality and
decimal printing.  Rust `panic!`/`expect` is modelled by the explicit
outcome type `RustOutcome`.
-/

namespace BlockchainProject

/-! ## SHA-256 (the `sha2` crate's `Sha256`, as used by `Block::calculate_hash`)

A direct functional implementation of FIPS 180-4 SHA-256 over byte lists,
with 32-bit words represented as `Nat` reduced mod `2^32`.  The digest is
rendered as a lowercase hex string, matching Rust's `format!("{:x}", result)`. -/

/-- Truncate to a 32-bit word. -/
def w32 (n : Nat) : Nat := n % 4294967296

/-- Right rotation of a 32-bit word by `n` bits. -/
def rotr (n x : Nat) : Nat := w32 ((x >>> n) ||| (x <<< (32 - n)))

/-- Bitwise complement within 32 bits. -/
def not32 (x : Nat) : Nat := 4294967295 ^^^ x

def ch32 (x y z : Nat) : Nat := (x &&& y) ^^^ (not32 x &&& z)

def maj32 (x y z : Nat) : Nat := (x &&& y) ^^^ (x &&& z) ^^^ (y &&& z)

def bigSigma0 (x : Nat) : Nat := rotr 2 x ^^^ rotr 13 x ^^^ rotr 22 x

def bigSigma1 (x : Nat) : Nat := rotr 6 x ^^^ rotr 11 x ^^^ rotr 25 x

def smallSigma0 (x : Nat) : Nat := rotr 7 x ^^^ rotr 18 x ^^^ (x >>> 3)

def smallSigma1 (x : Nat) : Nat := rotr 17 x ^^^ rotr 19 x ^^^ (x >>> 10)

/-- The 64 SHA-256 round constants. -/
def shaK : List Nat :=
  [1116352408, 1899447441, 3049323471, 3921009573, 961987163, 1508970993,
   2453635748, 2870763221, 3624381080, 310598401, 607225278, 1426881987,
   1925078388, 2162078206, 2614888103, 3248222580, 3835390401, 4022224774,
   264347078, 604807628, 770255983, 1249150122, 1555081692, 1996064986,
   2554220882, 2821834349, 2952996808, 3210313671, 3336571891, 3584528711,
   113926993, 338241895, 666307205, 773529912, 1294757372, 1396182291,
   1695183700, 1986661051, 2177026350, 2456956037, 2730485921, 2820302411,
   3259730800, 3345764771, 3516065817, 3600352804, 4094571909, 275423344,
   430227734, 506948616, 659060556, 883997877, 958139571, 1322822218,
   1537002063, 1747873779, 1955562222, 2024104815, 2227730452, 2361852424,
   2428436474, 2756734187, 3204031479, 3329325298]

/-- The initial SHA-256 hash state. -/
def shaInit : List Nat :=
  [1779033703, 3144134277, 1013904242, 2773480762,
   1359893119, 2600822924, 528734635, 1541459225]

/-- Big-endian bytes of `n`, `k` bytes wide. -/
def natToBytesBE (k n : Nat) : List Nat :=
  (List.range k).map fun i => (n >>> (8 * (k - 1 - i))) % 256

/-- FIPS 180-4 padding: append `0x80`, zeros to 56 mod 64, then the 64-bit
big-endian bit length. -/
def shaPad (msg : List Nat) : List Nat :=
  let l := msg.length
  let zeros := (119 - l % 64) % 64
  msg ++ [0x80] ++ List.replicate zeros 0 ++ natToBytesBE 8 (8 * l)

/-- Split a byte list into 64-byte chunks; `fuel` bounds the number of steps
(each step consumes at least one byte, so `l.length` is always enough). -/
def chunks64Go : Nat → List Nat → List (List Nat)
  | 0, _ => []
  | _ + 1, [] => []
  | fuel + 1, b :: rest => ((b :: rest).take 64) :: chunks64Go fuel ((b :: rest).drop 64)

/-- Split a byte list into 64-byte chunks. -/
def chunks64 (l : List Nat) : List (List Nat) := chunks64Go l.length l

/-- Combine bytes into big-endian 32-bit words. -/
def bytesToWords : List Nat → List Nat
  | b0 :: b1 :: b2 :: b3 :: rest =>
      (b0 * 16777216 + b1 * 65536 + b2 * 256 + b3) :: bytesToWords rest
  | _ => []

/-- Extend the 16 chunk words into the 64-word message schedule. -/
def msgSchedule (w16 : List Nat) : Array Nat :=
  (List.range 48).foldl
    (fun a _ =>
      let i := a.size
      a.push (w32 (a.getD (i - 16) 0 + smallSigma0 (a.getD (i - 15) 0) +
                   a.getD (i - 7) 0 + smallSigma1 (a.getD (i - 2) 0))))
    w16.toArray

/-- One SHA-256 compression over a 64-byte chunk. -/
def compressChunk (h : List Nat) (chunk : List Nat) : List Nat :=
  let w := msgSchedule (bytesToWords chunk)
  let st0 := (h.getD 0 0, h.getD 1 0, h.getD 2 0, h.getD 3 0,
              h.getD 4 0, h.getD 5 0, h.getD 6 0, h.getD 7 0)
  let stF := (List.range 64).foldl
    (fun (st : Nat × Nat × Nat × Nat × Nat × Nat × Nat × Nat) i =>
      let (a, b, c, d, e, f, g, hh) := st
      let t1 := w32 (hh + bigSigma1 e + ch32 e f g + shaK.getD i 0 + w.getD i 0)
      let t2 := w32 (bigSigma0 a + maj32 a b c)
      (w32 (t1 + t2), a, b, c, w32 (d + t1), e, f, g)) st0
  [w32 (h.getD 0 0 + stF.1), w32 (h.getD 1 0 + stF.2.1),
   w32 (h.getD 2 0 + stF.2.2.1), w32 (h.getD 3 0 + stF.2.2.2.1),
   w32 (h.getD 4 0 + stF.2.2.2.2.1), w32 (h.getD 5 0 + stF.2.2.2.2.2.1),
   w32 (h.getD 6 0 + stF.2.2.2.2.2.2.1), w32 (h.getD 7 0 + stF.2.2.2.2.2.2.2)]

/-- SHA-256 digest of a byte list, as eight 32-bit words. -/
def sha256Words (msg : List Nat) : List Nat :=
  (chunks64 (shaPad msg)).foldl compressChunk shaInit

/-- Lowercase hexadecimal digit characters. -/
def hexDigitChar : Nat → Char
  | 0 => '0' | 1 => '1' | 2 => '2' | 3 => '3' | 4 => '4'
  | 5 => '5' | 6 => '6' | 7 => '7' | 8 => '8' | 9 => '9'
  | 10 => 'a' | 11 => 'b' | 12 => 'c' | 13 => 'd' | 14 => 'e'
  | _ => 'f'

/-- Lowercase hex rendering of a 32-bit word (8 hex digits). -/
def wordToHex (n : Nat) : List Char :=
  (List.range 8).map fun i => hexDigitChar ((n >>> (28 - 4 * i)) % 16)

/-- Lowercase hex string of the SHA-256 digest (64 characters), as produced by
Rust's `format!("{:x}", hasher.finalize())`. -/
def sha256Hex (msg : List Nat) : String :=
  String.mk ((sha256Words msg).map wordToHex).flatten

/-! ## Byte encodings used when feeding the hasher -/

/-- UTF-8 encoding of a single character (the byte view Rust's
`hasher.update(&str)` takes of a string). -/
def utf8Bytes (c : Char) : List Nat :=
  let n := c.toNat
  if n < 0x80 then [n]
  else if n < 0x800 then
    [0xC0 ||| (n >>> 6), 0x80 ||| (n &&& 0x3F)]
  else if n < 0x10000 then
    [0xE0 ||| (n >>> 12), 0x80 ||| ((n >>> 6) &&& 0x3F), 0x80 ||| (n &&& 0x3F)]
  else
    [0xF0 ||| (n >>> 18), 0x80 ||| ((n >>> 12) &&& 0x3F),
     0x80 ||| ((n >>> 6) &&& 0x3F), 0x80 ||| (n &&& 0x3F)]

/-- UTF-8 bytes of a string. -/
def strBytes (s : String) : List Nat := (s.data.map utf8Bytes).flatten

/-! ## Decimal rendering of unsigned integers (Rust `u128::to_string`,
`usize` via serde), digit by digit. -/

/-- The decimal digit characters. -/
def digitChar : Nat → Char
  | 0 => '0' | 1 => '1' | 2 => '2' | 3 => '3' | 4 => '4'
  | 5 => '5' | 6 => '6' | 7 => '7' | 8 => '8' | _ => '9'

/-- Emit the decimal digits of `n` (least-significant first into `acc`);
`fuel` bounds the number of division steps (`n` itself is always enough,
since `n / 10 < n` for positive `n`). -/
def natToDigitsGo : Nat → Nat → List Char → List Char
  | 0, _, acc => acc
  | fuel + 1, n, acc =>
      if n = 0 then acc else natToDigitsGo fuel (n / 10) (digitChar (n % 10) :: acc)

/-- Decimal digit characters of `n`, most significant first. -/
def natToDigits (n : Nat) : List Char :=
  if n = 0 then ['0'] else natToDigitsGo n n []

/-- The `Block` struct of `src/block.rs`: timestamp (`u128`, milliseconds),
previous block hash, own hash, and height (`usize`). -/
structure Block where
  timestamp : Nat
  prev_block_hash : String
  hash : String
  height : Nat
deriving DecidableEq, Repr

instance : Inhabited Block := ⟨⟨0, "", "", 0⟩⟩

namespace Block

/-- `Block::calculate_hash`: SHA-256 over the decimal string of the timestamp
followed by the previous hash string, rendered as lowercase hex. -/
def calculate_hash (timestamp : Nat) (prev_block_hash : String) : String :=
  sha256Hex (strBytes (String.mk (natToDigits timestamp)) ++ strBytes prev_block_hash)

/-- `Block::new_block`.  The Rust code reads the wall clock for the timestamp;
the current time is passed in explicitly as `now`. -/
def new_block (now : Nat) (prev_block_hash : String) (height : Nat) : Block :=
  { timestamp := now
    prev_block_hash := prev_block_hash
    hash := calculate_hash now prev_block_hash
    height := height }

/-- The genesis sentinel previous hash: 64 zero characters (`"0".repeat(64)`). -/
def genesisPrevHash : String := String.mk (List.replicate 64 '0')

/-- `Block::genesis_block`, with the wall-clock reading passed in as `now`. -/
def genesis_block (now : Nat) : Block :=
  { timestamp := now
    prev_block_hash := genesisPrevHash
    hash := calculate_hash now genesisPrevHash
    height := 0 }

/-- `Block::get_hash`. -/
def get_hash (b : Block) : String := b.hash

/-- `Block::get_prev_hash`. -/
def get_prev_hash (b : Block) : String := b.prev_block_hash

/-- `Block::get_height`. -/
def get_height (b : Block) : Nat := b.height

/-- `Block::get_timestamp`. -/
def get_timestamp (b : Block) : Nat := b.timestamp

end Block

/-! ## Rust panics

`panic!`/`.expect(...)` aborts the surrounding computation; a function that
may panic is modelled as returning `RustOutcome`, with `panicked msg`
marking the aborted (process-crashing) path. -/

inductive RustOutcome (α : Type) where
  | ok (a : α)
  | panicked (msg : String)
deriving DecidableEq, Repr

/-! ## JSON interchange (serde_json, as instantiated for `Block`)

Modelled from serde_json's documented behavior for the derived
`Serialize`/`Deserialize` on `Block`: `to_string` emits
`{"timestamp":<dec>,"prev_block_hash":<jsonstr>,"hash":<jsonstr>,"height":<dec>}`
with no whitespace, fields in declaration order, strings escaped per the JSON
spec (`"`, `\`, and the named control escapes, other control characters as
`\u00xx` with lowercase hex).  The parser below accepts exactly this
canonical shape (field order fixed), which is sufficient ground truth for
every claim about decode success/failure handled in this development. -/

def quoteChar : Char := Char.ofNat 34

def backslashChar : Char := Char.ofNat 92

def lbraceChar : Char := Char.ofNat 123

def rbraceChar : Char := Char.ofNat 125

/-- JSON escape of one character, per serde_json's writer. -/
def escapeChar (c : Char) : List Char :=
  if c = quoteChar then [backslashChar, quoteChar]
  else if c = backslashChar then [backslashChar, backslashChar]
  else if c = Char.ofNat 8 then [backslashChar, 'b']
  else if c = Char.ofNat 9 then [backslashChar, 't']
  else if c = Char.ofNat 10 then [backslashChar, 'n']
  else if c = Char.ofNat 12 then [backslashChar, 'f']
  else if c = Char.ofNat 13 then [backslashChar, 'r']
  else if c.toNat < 32 then
    [backslashChar, 'u', '0', '0', hexDigitChar (c.toNat / 16), hexDigitChar (c.toNat % 16)]
  else [c]

/-- JSON escape of a character sequence. -/
def escList (s : List Char) : List Char := (s.map escapeChar).flatten

/-- `"<k>":` -/
def keyChars (k : String) : List Char := quoteChar :: k.data ++ [quoteChar, ':']

def litTimestamp : List Char := lbraceChar :: keyChars "timestamp"

def litPrev : List Char := ',' :: keyChars "prev_block_hash" ++ [quoteChar]

def litHash : List Char := ',' :: keyChars "hash" ++ [quoteChar]

def litHeight : List Char := ',' :: keyChars "height"

/-- The exact character sequence serde_json's `to_string` produces for a
`Block`. -/
def serializeBlockChars (b : Block) : List Char :=
  litTimestamp ++ natToDigits b.timestamp ++
  litPrev ++ escList b.prev_block_hash.data ++ [quoteChar] ++
  litHash ++ escList b.hash.data ++ [quoteChar] ++
  litHeight ++ natToDigits b.height ++ [rbraceChar]

/-- Value of a hex digit character, if it is one. -/
def hexVal (c : Char) : Option Nat :=
  let n := c.toNat
  if 48 ≤ n ∧ n ≤ 57 then some (n - 48)
  else if 97 ≤ n ∧ n ≤ 102 then some (n - 87)
  else if 65 ≤ n ∧ n ≤ 70 then some (n - 55)
  else none

/-- JSON string-body parser: consumes characters up to and including the
closing quote, resolving escapes; rejects raw control characters and
surrogate code points, as serde_json's reader does. -/
def parseJStringChars : List Char → Option (List Char × List Char)
  | [] => none
  | c :: rest =>
    if c = quoteChar then some ([], rest)
    else if c = backslashChar then
      match rest with
      | [] => none
      | e :: rest2 =>
        if e = quoteChar then
          (parseJStringChars rest2).map fun p => (quoteChar :: p.1, p.2)
        else if e = backslashChar then
          (parseJStringChars rest2).map fun p => (backslashChar :: p.1, p.2)
        else if e = '/' then
          (parseJStringChars rest2).map fun p => ('/' :: p.1, p.2)
        else if e = 'b' then
          (parseJStringChars rest2).map fun p => (Char.ofNat 8 :: p.1, p.2)
        else if e = 'f' then
          (parseJStringChars rest2).map fun p => (Char.ofNat 12 :: p.1, p.2)
        else if e = 'n' then
          (parseJStringChars rest2).map fun p => (Char.ofNat 10 :: p.1, p.2)
        else if e = 'r' then
          (parseJStringChars rest2).map fun p => (Char.ofNat 13 :: p.1, p.2)
        else if e = 't' then
          (parseJStringChars rest2).map fun p => (Char.ofNat 9 :: p.1, p.2)
        else if e = 'u' then
          match rest2 with
          | h1 :: h2 :: h3 :: h4 :: rest3 =>
            match hexVal h1, hexVal h2, hexVal h3, hexVal h4 with
            | some a, some b, some c2, some d =>
              let v := 4096 * a + 256 * b + 16 * c2 + d
              if 55296 ≤ v ∧ v ≤ 57343 then none
              else (parseJStringChars rest3).map fun p => (Char.ofNat v :: p.1, p.2)
            | _, _, _, _ => none
          | _ => none
        else none
    else if c.toNat < 32 then none
    else (parseJStringChars rest).map fun p => (c :: p.1, p.2)

/-- Take the leading decimal digits of a character list. -/
def spanDigits : List Char → List Char × List Char
  | [] => ([], [])
  | c :: rest =>
    if c.isDigit then
      let p := spanDigits rest
      (c :: p.1, p.2)
    else ([], c :: rest)

/-- Value of a list of decimal digit characters. -/
def digitsToNat (l : List Char) : Nat :=
  l.foldl (fun a c => 10 * a + (c.toNat - 48)) 0

/-- Match an expected literal prefix, returning the remainder. -/
def dropLit : List Char → List Char → Option (List Char)
  | [], s => some s
  | _ :: _, [] => none
  | c :: p, d :: s => if c = d then dropLit p s else none

/-- Parser for the canonical serde_json rendering of a `Block`
(`serde_json::from_str::<Block>` on the wire format actually produced by
peers in this system). -/
def parseBlockChars (s : List Char) : Option Block :=
  match dropLit litTimestamp s with
  | none => none
  | some s1 =>
    match spanDigits s1 with
    | (ds, s2) =>
      if ds = [] then none else
      match dropLit litPrev s2 with
      | none => none
      | some s3 =>
        match parseJStringChars s3 with
        | none => none
        | some (p, s4) =>
          match dropLit litHash s4 with
          | none => none
          | some s5 =>
            match parseJStringChars s5 with
            | none => none
            | some (hh, s6) =>
              match dropLit litHeight s6 with
              | none => none
              | some s7 =>
                match spanDigits s7 with
                | (es, s8) =>
                  if es = [] then none else
                  if s8 = [rbraceChar] then
                    some ⟨digitsToNat ds, String.mk p, String.mk hh, digitsToNat es⟩
                  else none

/-- `serde_json::from_str::<Block>` (the non-panicking `Result` entry point,
as used in `network.rs`). -/
def parseBlock (s : String) : Option Block := parseBlockChars s.data

/-- `Block::serialize`: `serde_json::to_string(self).expect(...)` — the
serializer cannot fail on a plain struct, so this is total. -/
def Block.serialize (b : Block) : String := String.mk (serializeBlockChars b)

/-- `Block::deserialize`: `serde_json::from_str(json_data).expect("Failed to
deserialize block")` — panics (crashing the process) on malformed input. -/
def Block.deserialize (json_data : String) : RustOutcome Block :=
  match parseBlock json_data with
  | some b => .ok b
  | none => .panicked "Failed to deserialize block"

/-! ## Blockchain (`src/src/blockchain.rs`) -/

/-- The `Blockchain` struct: a list of blocks. -/
structure Blockchain where
  blocks : List Block
deriving DecidableEq, Repr

namespace Blockchain

/-- `Blockchain::new`: a fresh chain holding a single genesis block (the
wall-clock reading is passed in as `now`). -/
def new (now : Nat) : Blockchain := ⟨[Block.genesis_block now]⟩

/-- `Blockchain::get_blocks`. -/
def get_blocks (c : Blockchain) : List Block := c.blocks

/-- `Blockchain::get_last_block`: `self.blocks.last()`. -/
def get_last_block (c : Blockchain) : Option Block := c.blocks.getLast?

/-- `Blockchain::is_valid`: `for i in 1..len`, check at each `i` that
`blocks[i].prev_hash == blocks[i-1].hash` and that `blocks[i].hash` equals
the recomputed digest; report false on the first failure. -/
def is_valid (c : Blockchain) : Bool :=
  (List.range' 1 (c.blocks.length - 1)).all fun i =>
    let cur := c.blocks.getD i default
    let prev := c.blocks.getD (i - 1) default
    cur.get_prev_hash == prev.get_hash &&
      cur.get_hash == Block.calculate_hash cur.timestamp cur.prev_block_hash

/-- `Blockchain::from_blocks`: wraps the list and `panic!`s (crashing the
process) if `is_valid` fails on the result. -/
def from_blocks (data : List Block) : RustOutcome Blockchain :=
  let blockchain : Blockchain := ⟨data⟩
  if is_valid blockchain then .ok blockchain
  else .panicked "Invalid blockchain provided!"

/-- `Blockchain::add_block`: rejects when the chain is empty or when the
incoming block's `prev_hash` differs from the last block's `hash`; otherwise
pushes the block.  Returns the updated chain paired with the `bool` result. -/
def add_block (c : Blockchain) (block : Block) : Blockchain × Bool :=
  match get_last_block c with
  | some last_block =>
    if block.get_prev_hash ≠ last_block.get_hash then (c, false)
    else (⟨c.blocks ++ [block]⟩, true)
  | none => (c, false)

end Blockchain

/-! ## Sync protocol and dispatch (`src/src/network.rs`) -/

/-- The `NetworkMessage` enum. -/
inductive NetworkMessage where
  | NewBlock (payload : String)
  | ChainRequest
  | ChainResponse (blocks : List String)
deriving DecidableEq, Repr

/-- The message dispatch inside `handle_event` (the body run once a
GossipSub payload has decoded to a `NetworkMessage`): returns the updated
local chain together with the protocol messages published in response.
`NewBlock` decodes the payload (dropping it on error) and runs `add_block`,
keeping whatever chain state that produced; `ChainRequest` publishes a
`ChainResponse` with every local block serialized; any other variant
(i.e. `ChainResponse`) falls to the wildcard arm, which only logs. -/
def handleMessage (msg : NetworkMessage) (local_blockchain : Blockchain) :
    Blockchain × List NetworkMessage :=
  match msg with
  | .NewBlock block_data =>
    match parseBlock block_data with
    | none => (local_blockchain, [])
    | some block => ((local_blockchain.add_block block).1, [])
  | .ChainRequest =>
    (local_blockchain,
     [.ChainResponse (local_blockchain.get_blocks.map Block.serialize)])
  | .ChainResponse _ => (local_blockchain, [])

/-! ## Node coordinator (`src/main.rs`) -/

/-- Observable steps of the coordinator's "Add Block" command handler, in
execution order: publishing a protocol message, and committing a block to
the owned chain. -/
inductive NodeEvent where
  | broadcast (msg : NetworkMessage)
  | commit (b : Block)
deriving DecidableEq, Repr

instance : Inhabited NodeEvent := ⟨.broadcast .ChainRequest⟩

def isBroadcastEvt : NodeEvent → Bool
  | .broadcast _ => true
  | .commit _ => false

def isCommitEvt : NodeEvent → Bool
  | .broadcast _ => false
  | .commit _ => true

/-- The `Add Block` arm of `main`'s CLI loop: read the current tip
(`.unwrap()` panics when the chain is empty, modelled as `none`), build the
next block, broadcast it as `NewBlock`, and only then `add_block` it
locally.  Returns the ordered event sequence and the resulting chain. -/
def addBlockCommand (now : Nat) (c : Blockchain) :
    Option (List NodeEvent × Blockchain) :=
  match c.get_last_block with
  | none => none
  | some prev_block =>
    let new_block := Block.new_block now prev_block.get_hash (prev_block.get_height + 1)
    let events := [NodeEvent.broadcast (.NewBlock (Block.serialize new_block)),
                   NodeEvent.commit new_block]
    some (events, (c.add_block new_block).1)

/-- `true` when some commit event strictly precedes some broadcast event in
the sequence — the ordering property the specification ascribes to the
append handler. -/
def existsCommitThenBroadcast : List NodeEvent → Bool
  | [] => false
  | e :: rest => (isCommitEvt e && rest.any isBroadcastEvt) || existsCommitThenBroadcast rest

/-! ## Helper lemmas: decimal digits -/

/-- Number of decimal digits of `n` (1 for `n < 10`). -/
def digitCount (n : Nat) : Nat :=
  if _ : n < 10 then 1 else digitCount (n / 10) + 1
termination_by n
decreasing_by
  exact Nat.div_lt_self (by omega) (by omega)

theorem natToDigitsGo_zero (f : Nat) (acc : List Char) :
    natToDigitsGo f 0 acc = acc := by
  cases f <;> simp [natToDigitsGo]

theorem digitChar_isDigit (d : Nat) : (digitChar d).isDigit = true := by
  rcases d with _ | _ | _ | _ | _ | _ | _ | _ | _ | d <;> rfl

theorem digitChar_toNat (d : Nat) (h : d < 10) : (digitChar d).toNat = 48 + d := by
  interval_cases d <;> rfl

theorem foldl_natToDigitsGo (n : Nat) :
    0 < n → ∀ fuel, n ≤ fuel → ∀ acc a,
      List.foldl (fun a c => 10 * a + (c.toNat - 48)) a (natToDigitsGo fuel n acc) =
        List.foldl (fun a c => 10 * a + (c.toNat - 48)) (a * 10 ^ digitCount n + n) acc := by
  induction n using Nat.strong_induction_on with
  | _ n ih =>
    intro hn fuel hfuel acc a
    match fuel with
    | 0 => omega
    | f + 1 =>
      have hne : ¬ n = 0 := by omega
      rw [natToDigitsGo, if_neg hne]
      by_cases h10 : n < 10
      · have hdc : digitCount n = 1 := by rw [digitCount, dif_pos h10]
        have hdiv : n / 10 = 0 := Nat.div_eq_of_lt h10
        have hmod : n % 10 = n := Nat.mod_eq_of_lt h10
        rw [hdiv, natToDigitsGo_zero, List.foldl_cons, hmod,
          digitChar_toNat n h10, hdc]
        have harg : 10 * a + (48 + n - 48) = a * 10 ^ 1 + n := by
          rw [pow_one]; omega
        rw [harg]
      · have hdc : digitCount n = digitCount (n / 10) + 1 := by
          rw [digitCount, dif_neg h10]
        have hmlt : n / 10 < n := Nat.div_lt_self (by omega) (by omega)
        have hmpos : 0 < n / 10 := Nat.div_pos (by omega) (by omega)
        have hmf : n / 10 ≤ f := by omega
        rw [ih (n / 10) hmlt hmpos f hmf, List.foldl_cons,
          digitChar_toNat (n % 10) (Nat.mod_lt n (by omega)), hdc]
        have hsplit : 10 * (n / 10) + n % 10 = n := Nat.div_add_mod n 10
        have harg : 10 * (a * 10 ^ digitCount (n / 10) + n / 10) + (48 + n % 10 - 48) =
            a * 10 ^ (digitCount (n / 10) + 1) + n := by
          have h1 : a * 10 ^ (digitCount (n / 10) + 1) =
              a * 10 ^ digitCount (n / 10) * 10 := by ring
          rw [h1]
          generalize a * 10 ^ digitCount (n / 10) = t
          omega
        rw [harg]

theorem digitsToNat_natToDigits (n : Nat) : digitsToNat (natToDigits n) = n := by
  by_cases h : n = 0
  · subst h; decide
  · rw [natToDigits, if_neg h, digitsToNat,
      foldl_natToDigitsGo n (by omega) n (le_refl n) [] 0]
    simp

theorem natToDigitsGo_length (fuel : Nat) :
    ∀ n acc, acc.length ≤ (natToDigitsGo fuel n acc).length := by
  induction fuel with
  | zero => intro n acc; simp [natToDigitsGo]
  | succ f ih =>
    intro n acc
    rw [natToDigitsGo]
    by_cases h : n = 0
    · rw [if_pos h]
    · rw [if_neg h]
      calc acc.length ≤ (digitChar (n % 10) :: acc).length := by simp
        _ ≤ _ := ih (n / 10) _

theorem natToDigits_ne_nil (n : Nat) : natToDigits n ≠ [] := by
  rw [natToDigits]
  by_cases h : n = 0
  · rw [if_pos h]; simp
  · rw [if_neg h]
    obtain ⟨m, rfl⟩ : ∃ m, n = m + 1 := ⟨n - 1, by omega⟩
    intro hnil
    have hstep : natToDigitsGo (m + 1) (m + 1) [] =
        natToDigitsGo m ((m + 1) / 10) [digitChar ((m + 1) % 10)] := by
      rw [natToDigitsGo, if_neg (by omega)]
    have h1 := natToDigitsGo_length m ((m + 1) / 10) [digitChar ((m + 1) % 10)]
    rw [hstep] at hnil
    rw [hnil] at h1
    simp at h1

theorem natToDigitsGo_digits (fuel : Nat) :
    ∀ n acc, (∀ c ∈ acc, c.isDigit = true) →
      ∀ c ∈ natToDigitsGo fuel n acc, c.isDigit = true := by
  induction fuel with
  | zero => intro n acc hacc; simpa [natToDigitsGo] using hacc
  | succ f ih =>
    intro n acc hacc
    rw [natToDigitsGo]
    by_cases h : n = 0
    · rw [if_pos h]; exact hacc
    · rw [if_neg h]
      refine ih (n / 10) _ ?_
      intro c hc
      rcases List.mem_cons.mp hc with hc | hc
      · subst hc; exact digitChar_isDigit _
      · exact hacc c hc

theorem natToDigits_digits (n : Nat) : ∀ c ∈ natToDigits n, c.isDigit = true := by
  rw [natToDigits]
  by_cases h : n = 0
  · rw [if_pos h]; intro c hc; simp at hc; subst hc; rfl
  · rw [if_neg h]
    exact natToDigitsGo_digits n n [] (by intro c hc; simp at hc)

/-! ## Helper lemmas: the canonical-form parser inverts the serializer -/

theorem spanDigits_append (l : List Char) (c : Char) (r : List Char)
    (hl : ∀ x ∈ l, x.isDigit = true) (hc : c.isDigit = false) :
    spanDigits (l ++ c :: r) = (l, c :: r) := by
  induction l with
  | nil => simp [spanDigits, hc]
  | cons d l' ih =>
    have hd : d.isDigit = true := hl d (by simp)
    have ih' := ih (fun x hx => hl x (by simp [hx]))
    simp [spanDigits, hd, ih']

theorem dropLit_append (p s : List Char) : dropLit p (p ++ s) = some s := by
  induction p with
  | nil => rfl
  | cons c p' ih => simp [dropLit, ih]

theorem hexVal_hexDigitChar (d : Nat) (h : d < 16) :
    hexVal (hexDigitChar d) = some d := by
  interval_cases d <;> rfl

theorem parseJStringChars_escapeChar (c : Char) (z : List Char) :
    parseJStringChars (escapeChar c ++ z) =
      (parseJStringChars z).map fun p => (c :: p.1, p.2) := by
  rw [escapeChar]
  by_cases h1 : c = quoteChar
  · rw [if_pos h1]; subst h1
    simp only [List.cons_append, List.nil_append]
    conv_lhs => rw [parseJStringChars.eq_def]
    simp +decide
  rw [if_neg h1]
  by_cases h2 : c = backslashChar
  · rw [if_pos h2]; subst h2
    simp only [List.cons_append, List.nil_append]
    conv_lhs => rw [parseJStringChars.eq_def]
    simp +decide
  rw [if_neg h2]
  by_cases h3 : c = Char.ofNat 8
  · rw [if_pos h3]; subst h3
    simp only [List.cons_append, List.nil_append]
    conv_lhs => rw [parseJStringChars.eq_def]
    simp +decide
  rw [if_neg h3]
  by_cases h4 : c = Char.ofNat 9
  · rw [if_pos h4]; subst h4
    simp only [List.cons_append, List.nil_append]
    conv_lhs => rw [parseJStringChars.eq_def]
    simp +decide
  rw [if_neg h4]
  by_cases h5 : c = Char.ofNat 10
  · rw [if_pos h5]; subst h5
    simp only [List.cons_append, List.nil_append]
    conv_lhs => rw [parseJStringChars.eq_def]
    simp +decide
  rw [if_neg h5]
  by_cases h6 : c = Char.ofNat 12
  · rw [if_pos h6]; subst h6
    simp only [List.cons_append, List.nil_append]
    conv_lhs => rw [parseJStringChars.eq_def]
    simp +decide
  rw [if_neg h6]
  by_cases h7 : c = Char.ofNat 13
  · rw [if_pos h7]; subst h7
    simp only [List.cons_append, List.nil_append]
    conv_lhs => rw [parseJStringChars.eq_def]
    simp +decide
  rw [if_neg h7]
  by_cases h8 : c.toNat < 32
  · rw [if_pos h8]
    obtain ⟨n, hn, rfl⟩ : ∃ n, n < 32 ∧ c = Char.ofNat n :=
      ⟨c.toNat, h8, (Char.ofNat_toNat c).symm⟩
    interval_cases n <;>
      first
        | exact absurd rfl h3
        | exact absurd rfl h4
        | exact absurd rfl h5
        | exact absurd rfl h6
        | exact absurd rfl h7
        | (simp only [List.cons_append, List.nil_append]
           conv_lhs => rw [parseJStringChars.eq_def]
           simp +decide [hexVal, hexDigitChar])
  · rw [if_neg h8, List.cons_append, List.nil_append]
    conv_lhs => rw [parseJStringChars.eq_def]
    simp [h1, h2, h8]

theorem parseJStringChars_escList (s rest : List Char) :
    parseJStringChars (escList s ++ quoteChar :: rest) = some (s, rest) := by
  induction s with
  | nil =>
    show parseJStringChars (escList [] ++ quoteChar :: rest) = some ([], rest)
    have h0 : escList [] = [] := rfl
    rw [h0, List.nil_append]
    conv_lhs => rw [parseJStringChars.eq_def]
    simp +decide
  | cons c s' ih =>
    have hstep : escList (c :: s') = escapeChar c ++ escList s' := by
      simp [escList]
    rw [hstep, List.append_assoc, parseJStringChars_escapeChar, ih]
    rfl

theorem spanDigits_natToDigits (n : Nat) (c : Char) (r : List Char)
    (hc : c.isDigit = false) :
    spanDigits (natToDigits n ++ c :: r) = (natToDigits n, c :: r) :=
  spanDigits_append _ c r (natToDigits_digits n) hc

/-! ## Helper lemmas: digest shape -/

theorem compressChunk_length (h chunk : List Nat) :
    (compressChunk h chunk).length = 8 := rfl

theorem sha256Words_length (msg : List Nat) : (sha256Words msg).length = 8 := by
  rw [sha256Words]
  have hgen : ∀ (cs : List (List Nat)) (h : List Nat), h.length = 8 →
      (cs.foldl compressChunk h).length = 8 := by
    intro cs
    induction cs with
    | nil => intro h hh; simpa using hh
    | cons c cs' ih => intro h hh; exact ih _ (compressChunk_length h c)
  exact hgen _ shaInit rfl

theorem wordToHex_length (n : Nat) : (wordToHex n).length = 8 := by
  simp [wordToHex]

theorem sha256Hex_length (msg : List Nat) : (sha256Hex msg).length = 64 := by
  have hflat : ∀ ws : List Nat, ((ws.map wordToHex).flatten).length = 8 * ws.length := by
    intro ws
    induction ws with
    | nil => rfl
    | cons w ws' ih =>
      simp only [List.map_cons, List.flatten_cons, List.length_append, ih,
        wordToHex_length, List.length_cons]
      ring
  show ((sha256Words msg).map wordToHex).flatten.length = 64
  rw [hflat, sha256Words_length]

theorem calculate_hash_length (t : Nat) (p : String) :
    (Block.calculate_hash t p).length = 64 :=
  sha256Hex_length _

/-! ## Helper lemmas: chain operations -/

theorem add_block_accept (c : Blockchain) (last b : Block)
    (hl : c.get_last_block = some last) (hb : b.get_prev_hash = last.get_hash) :
    c.add_block b = (⟨c.blocks ++ [b]⟩, true) := by
  simp [Blockchain.add_block, hl, hb]

theorem add_block_reject (c : Blockchain) (last b : Block)
    (hl : c.get_last_block = some last) (hb : b.get_prev_hash ≠ last.get_hash) :
    c.add_block b = (c, false) := by
  simp [Blockchain.add_block, hl, hb]

theorem add_block_empty (c : Blockchain) (b : Block)
    (hl : c.get_last_block = none) : c.add_block b = (c, false) := by
  simp [Blockchain.add_block, hl]

theorem is_valid_iff (bs : List Block) :
    Blockchain.is_valid ⟨bs⟩ = true ↔
      ∀ i, 1 ≤ i → i < bs.length →
        (bs.getD i default).get_prev_hash = (bs.getD (i - 1) default).get_hash ∧
        (bs.getD i default).get_hash =
          Block.calculate_hash (bs.getD i default).timestamp
            (bs.getD i default).prev_block_hash := by
  simp only [Blockchain.is_valid, List.all_eq_true, List.mem_range'_1,
    Bool.and_eq_true, beq_iff_eq]
  constructor
  · intro h i h1 h2
    exact h i ⟨h1, by omega⟩
  · intro h i hi
    exact h i hi.1 (by omega)

theorem is_valid_short (bs : List Block) (h : bs.length ≤ 1) :
    Blockchain.is_valid ⟨bs⟩ = true := by
  rw [is_valid_iff]
  intro i h1 h2
  omega

theorem parseBlockChars_serialize (b : Block) :
    parseBlockChars (serializeBlockChars b) = some b := by
  have hmk : ∀ s : String, String.mk s.data = s := fun _ => rfl
  have hps : serializeBlockChars b =
      litTimestamp ++ (natToDigits b.timestamp ++ (litPrev ++
        (escList b.prev_block_hash.data ++ (quoteChar :: (litHash ++
          (escList b.hash.data ++ (quoteChar :: (litHeight ++
            (natToDigits b.height ++ [rbraceChar]))))))))) := by
    simp [serializeBlockChars, List.append_assoc]
  have hspan1 : ∀ R : List Char,
      spanDigits (natToDigits b.timestamp ++ (litPrev ++ R)) =
        (natToDigits b.timestamp, litPrev ++ R) := by
    intro R
    have hshape : litPrev ++ R =
        ',' :: (keyChars "prev_block_hash" ++ ([quoteChar] ++ R)) := by
      simp [litPrev]
    rw [hshape, spanDigits_natToDigits _ _ _ (by decide), ← hshape]
  have hspan2 : spanDigits (natToDigits b.height ++ [rbraceChar]) =
      (natToDigits b.height, [rbraceChar]) := by
    have hshape : ([rbraceChar] : List Char) = rbraceChar :: [] := rfl
    rw [hshape, spanDigits_natToDigits _ _ _ (by decide)]
  rw [hps]
  simp [parseBlockChars, dropLit_append, hspan1, hspan2,
    parseJStringChars_escList, natToDigits_ne_nil, digitsToNat_natToDigits, hmk]

theorem parseBlock_serialize (b : Block) : parseBlock (Block.serialize b) = some b :=
  parseBlockChars_serialize b

/-! ## Claims -/

/-- C1 (counterexample): `add_block` accepts a block whose stored `hash` is
not the recomputed digest (it is `"bogus"`, which cannot be a 64-character
SHA-256 hex digest), as long as the `prev_hash` matches the tip — so the
claimed hash-integrity recheck inside `addBlock` does not exist. -/
theorem C1_counterexample :
    Blockchain.add_block ⟨[⟨0, "00", "aa", 0⟩]⟩ ⟨1, "aa", "bogus", 1⟩ =
      (⟨[⟨0, "00", "aa", 0⟩, ⟨1, "aa", "bogus", 1⟩]⟩, true) ∧
    (⟨1, "aa", "bogus", 1⟩ : Block).hash ≠
      Block.calculate_hash (⟨1, "aa", "bogus", 1⟩ : Block).timestamp
        (⟨1, "aa", "bogus", 1⟩ : Block).prev_block_hash := by
  constructor
  · rfl
  · intro h
    have hlen := congrArg String.length h
    rw [calculate_hash_length] at hlen
    exact absurd hlen (by decide)

/-- C1 (amended): `add_block` performs no hash-integrity recheck — whenever
the chain is non-empty and the incoming block's `prev_hash` equals the tip's
`hash`, the block is accepted and appended, whatever its stored `hash`
field holds. -/
theorem C1_theorem (c : Blockchain) (last b : Block)
    (hl : c.get_last_block = some last) (hb : b.get_prev_hash = last.get_hash) :
    c.add_block b = (⟨c.blocks ++ [b]⟩, true) :=
  add_block_accept c last b hl hb

/-- C1 witness: the amended theorem at a concrete chain and block whose
stored hash (`"zz"`) is unrelated to any digest. -/
theorem C1_witness :
    Blockchain.add_block ⟨[⟨5, "pp", "qq", 0⟩]⟩ ⟨6, "qq", "zz", 1⟩ =
      (⟨[⟨5, "pp", "qq", 0⟩, ⟨6, "qq", "zz", 1⟩]⟩, true) :=
  C1_theorem ⟨[⟨5, "pp", "qq", 0⟩]⟩ ⟨5, "pp", "qq", 0⟩ ⟨6, "qq", "zz", 1⟩ rfl rfl

/-- C2 (counterexample): in the concrete run of the `Add Block` handler on a
one-block chain, no commit event precedes a broadcast event; the handler
emits the broadcast first (`[broadcast, commit]`), so the chain commit does
not precede the announcement. -/
theorem C2_counterexample :
    existsCommitThenBroadcast
      (((addBlockCommand 1 ⟨[⟨0, "00", "aa", 0⟩]⟩).map Prod.fst).getD []) = false ∧
    (((addBlockCommand 1 ⟨[⟨0, "00", "aa", 0⟩]⟩).map Prod.fst).getD []).map
      isCommitEvt = [false, true] ∧
    (((addBlockCommand 1 ⟨[⟨0, "00", "aa", 0⟩]⟩).map Prod.fst).getD []).map
      isBroadcastEvt = [true, false] :=
  ⟨rfl, rfl, rfl⟩

/-- C2 (amended): on a local "Add Block" command the coordinator announces
the new block via `NewBlock` first and appends it to the owned chain only
afterwards: the event sequence is exactly broadcast-then-commit. -/
theorem C2_theorem (now : Nat) (c : Blockchain) (evs : List NodeEvent)
    (c' : Blockchain) (h : addBlockCommand now c = some (evs, c')) :
    ∃ m nb, evs = [NodeEvent.broadcast m, NodeEvent.commit nb] := by
  rw [addBlockCommand] at h
  match hl : c.get_last_block with
  | none => rw [hl] at h; exact absurd h (by simp)
  | some prev =>
    rw [hl] at h
    simp only [Option.some.injEq, Prod.mk.injEq] at h
    exact ⟨_, _, h.1.symm⟩

/-- C2 witness: the amended theorem at a concrete one-block chain. -/
theorem C2_witness :
    ∃ m nb,
      [NodeEvent.broadcast
         (NetworkMessage.NewBlock (Block.serialize (Block.new_block 1 "aa" 1))),
       NodeEvent.commit (Block.new_block 1 "aa" 1)] =
        [NodeEvent.broadcast m, NodeEvent.commit nb] :=
  C2_theorem 1 ⟨[⟨0, "00", "aa", 0⟩]⟩ _
    ((Blockchain.add_block ⟨[⟨0, "00", "aa", 0⟩]⟩ (Block.new_block 1 "aa" 1)).1) rfl

/-- C3 (counterexample): `from_blocks` on a structurally invalid sequence
(broken linkage at index 1) `panic!`s — the construction attempt aborts the
process (`RustOutcome.panicked`) instead of handing the caller a
recoverable constructor error. -/
theorem C3_counterexample :
    Blockchain.from_blocks [⟨0, "00", "aa", 0⟩, ⟨1, "zz", "bb", 1⟩] =
      .panicked "Invalid blockchain provided!" := rfl

/-- C3 (amended): on a sequence failing `is_valid`, `from_blocks` panics
with "Invalid blockchain provided!" (a process-crashing `panic!`, not an
error value returned to the caller); on a sequence passing `is_valid` it
returns a chain containing exactly that sequence. -/
theorem C3_theorem (data : List Block) :
    (Blockchain.is_valid ⟨data⟩ = false →
      Blockchain.from_blocks data = .panicked "Invalid blockchain provided!") ∧
    (Blockchain.is_valid ⟨data⟩ = true →
      Blockchain.from_blocks data = .ok ⟨data⟩) := by
  constructor <;> intro h <;> simp [Blockchain.from_blocks, h]

/-- C3 witness: the amended theorem at a concrete invalid sequence and a
concrete valid one. -/
theorem C3_witness :
    Blockchain.from_blocks [⟨0, "00", "aa", 0⟩, ⟨2, "ww", "cc", 1⟩] =
      .panicked "Invalid blockchain provided!" ∧
    Blockchain.from_blocks [⟨3, "pp", "qq", 4⟩] = .ok ⟨[⟨3, "pp", "qq", 4⟩]⟩ :=
  ⟨(C3_theorem [⟨0, "00", "aa", 0⟩, ⟨2, "ww", "cc", 1⟩]).1 rfl,
   (C3_theorem [⟨3, "pp", "qq", 4⟩]).2 rfl⟩

/-- C4 (counterexample): a two-block sequence whose heights are 5 and 9
(violating height-monotonicity at every index) and whose first block's
stored hash (`"h0"`, two characters) cannot be the recomputed digest, yet
`is_valid` reports true — so `is_valid` checks neither heights nor the
hash-integrity of index 0. -/
theorem C4_counterexample :
    Blockchain.is_valid
      ⟨[⟨0, "p0", "h0", 5⟩, ⟨1, "h0", Block.calculate_hash 1 "h0", 9⟩]⟩ = true ∧
    (⟨0, "p0", "h0", 5⟩ : Block).height ≠ 0 ∧
    (⟨0, "p0", "h0", 5⟩ : Block).hash ≠
      Block.calculate_hash (⟨0, "p0", "h0", 5⟩ : Block).timestamp
        (⟨0, "p0", "h0", 5⟩ : Block).prev_block_hash := by
  refine ⟨?_, by decide, ?_⟩
  · rw [is_valid_iff]
    intro i h1 h2
    simp only [List.length_cons, List.length_nil] at h2
    interval_cases i
    exact ⟨rfl, rfl⟩
  · intro h
    have hlen := congrArg String.length h
    rw [calculate_hash_length] at hlen
    exact absurd hlen (by decide)

/-- C4 (amended): `is_valid` is true exactly when every index `i ≥ 1`
satisfies chain-linkage and hash-integrity; it checks no heights at all and
never re-checks the hash of index 0. -/
theorem C4_theorem (bs : List Block) :
    Blockchain.is_valid ⟨bs⟩ = true ↔
      ∀ i, 1 ≤ i → i < bs.length →
        (bs.getD i default).get_prev_hash = (bs.getD (i - 1) default).get_hash ∧
        (bs.getD i default).get_hash =
          Block.calculate_hash (bs.getD i default).timestamp
            (bs.getD i default).prev_block_hash :=
  is_valid_iff bs

/-- C4 witness: the amended characterization applied to the empty sequence. -/
theorem C4_witness : Blockchain.is_valid ⟨[]⟩ = true :=
  (C4_theorem []).mpr (fun i _ h2 => absurd h2 (by simp))

/-- C5: on a non-empty chain, `add_block` accepts exactly the blocks whose
`prev_hash` equals the tip's hash — on success the block is appended and
becomes the tip (whose `prev_hash` is the previous tip's hash), on mismatch
it returns false with the chain unchanged. -/
theorem C5_theorem (c : Blockchain) (last b : Block)
    (hl : c.get_last_block = some last) :
    (b.get_prev_hash = last.get_hash →
      c.add_block b = (⟨c.blocks ++ [b]⟩, true) ∧
      (c.add_block b).1.get_last_block = some b ∧
      b.get_prev_hash = last.get_hash) ∧
    (b.get_prev_hash ≠ last.get_hash → c.add_block b = (c, false)) := by
  constructor
  · intro hb
    refine ⟨add_block_accept c last b hl hb, ?_, hb⟩
    rw [add_block_accept c last b hl hb]
    show (c.blocks ++ [b]).getLast? = some b
    simp
  · intro hb
    exact add_block_reject c last b hl hb

/-- C5 witness: both branches at concrete inputs — a matching block is
appended and becomes the tip; a stale block is rejected unchanged. -/
theorem C5_witness :
    (Blockchain.add_block ⟨[⟨0, "00", "aa", 0⟩]⟩ ⟨1, "aa", "bb", 1⟩ =
       (⟨[⟨0, "00", "aa", 0⟩, ⟨1, "aa", "bb", 1⟩]⟩, true) ∧
     (Blockchain.add_block ⟨[⟨0, "00", "aa", 0⟩]⟩ ⟨1, "aa", "bb", 1⟩).1.get_last_block =
       some ⟨1, "aa", "bb", 1⟩ ∧
     (⟨1, "aa", "bb", 1⟩ : Block).get_prev_hash = (⟨0, "00", "aa", 0⟩ : Block).get_hash) ∧
    Blockchain.add_block ⟨[⟨0, "00", "aa", 0⟩]⟩ ⟨1, "xx", "bb", 1⟩ =
      (⟨[⟨0, "00", "aa", 0⟩]⟩, false) :=
  ⟨(C5_theorem ⟨[⟨0, "00", "aa", 0⟩]⟩ ⟨0, "00", "aa", 0⟩ ⟨1, "aa", "bb", 1⟩ rfl).1 rfl,
   (C5_theorem ⟨[⟨0, "00", "aa", 0⟩]⟩ ⟨0, "00", "aa", 0⟩ ⟨1, "xx", "bb", 1⟩ rfl).2
     (by decide)⟩

/-- C6: re-delivering a `NewBlock` carrying the block that is already the
tip leaves the chain unchanged and emits nothing — the duplicate's
`prev_hash` is the pre-append tip's hash, not its own hash, so the
prev-hash mismatch check rejects it. -/
theorem C6_theorem (c : Blockchain) (b : Block)
    (hl : c.get_last_block = some b) (hb : b.get_prev_hash ≠ b.get_hash) :
    handleMessage (.NewBlock (Block.serialize b)) c = (c, []) := by
  rw [handleMessage, parseBlock_serialize]
  simp [add_block_reject c b b hl hb]

/-- C6 witness: the theorem at a concrete two-block chain whose tip is
re-delivered. -/
theorem C6_witness :
    handleMessage (.NewBlock (Block.serialize ⟨1, "aa", "bb", 1⟩))
      ⟨[⟨0, "00", "aa", 0⟩, ⟨1, "aa", "bb", 1⟩]⟩ =
      (⟨[⟨0, "00", "aa", 0⟩, ⟨1, "aa", "bb", 1⟩]⟩, []) :=
  C6_theorem ⟨[⟨0, "00", "aa", 0⟩, ⟨1, "aa", "bb", 1⟩]⟩ ⟨1, "aa", "bb", 1⟩ rfl
    (by decide)

/-- C7: dispatching an inbound `ChainResponse` leaves the local chain
exactly as it was and publishes no reply — the variant falls to the
wildcard arm, which only logs. -/
theorem C7_theorem (l : List String) (c : Blockchain) :
    handleMessage (.ChainResponse l) c = (c, []) := rfl

/-- C8 (counterexample): `Block::deserialize` on a malformed input does not
return a decoding error to the caller — it panics (crashing the process)
via `.expect("Failed to deserialize block")`. -/
theorem C8_counterexample :
    Block.deserialize "garbage" = .panicked "Failed to deserialize block" := rfl

/-- C8 (amended): on every input that does not decode to a `Block`,
`Block::deserialize` panics with "Failed to deserialize block" (process
crash) — it never silently produces a default `Block`, but the error is a
panic, not a value returned to the caller. -/
theorem C8_theorem (s : String) (h : parseBlock s = none) :
    Block.deserialize s = .panicked "Failed to deserialize block" := by
  rw [Block.deserialize, h]

/-- C8 witness: the amended theorem at a concrete malformed input. -/
theorem C8_witness : Block.deserialize "x" = .panicked "Failed to deserialize block" :=
  C8_theorem "x" rfl

/-- C9: serialization followed by deserialization is the identity on
blocks, field for field. -/
theorem C9_theorem (b : Block) : Block.deserialize (Block.serialize b) = .ok b := by
  rw [Block.deserialize, parseBlock_serialize]

/-- C10: sequences of length at most 1 always pass `is_valid` (whatever the
block's contents), so `from_blocks` accepts any single block and the empty
sequence; on the resulting empty chain the tip is absent and every
`add_block` call returns false leaving the chain empty. -/
theorem C10_theorem :
    (∀ bs : List Block, bs.length ≤ 1 → Blockchain.is_valid ⟨bs⟩ = true) ∧
    (∀ b : Block, Blockchain.from_blocks [b] = .ok ⟨[b]⟩) ∧
    Blockchain.from_blocks [] = .ok ⟨[]⟩ ∧
    Blockchain.get_last_block ⟨[]⟩ = none ∧
    (∀ b : Block, Blockchain.add_block ⟨[]⟩ b = (⟨[]⟩, false)) := by
  refine ⟨is_valid_short, ?_, rfl, rfl, ?_⟩
  · intro b
    simp [Blockchain.from_blocks, is_valid_short [b] (by simp)]
  · intro b
    exact add_block_empty ⟨[]⟩ b rfl

/-- C10 witness: a single block violating the genesis invariants and the
hash-integrity invariant still passes `is_valid`. -/
theorem C10_witness : Blockchain.is_valid ⟨[⟨0, "xx", "yy", 7⟩]⟩ = true :=
  C10_theorem.1 [⟨0, "xx", "yy", 7⟩] (by simp)

end BlockchainProject
